import Mathlib

set_option maxRecDepth 100000
set_option maxHeartbeats 1000000

/-!
Verification of the voxel-world core of the `echoes` repository.

The embedding translates the Python sources (`voxel.py`, `main.py`,
`characters.py`) into Lean definitions: continuous positions become exact
rationals, the sparse world dictionaries become association lists kept in
insertion order, and the collision / raycast loops become structural
recursion and folds over the same concrete face lists the code uses.
-/

namespace Echoes

/-- An integer cell coordinate, as produced by `normalize`. -/
abbrev Coord := ℤ × ℤ × ℤ

/-- A continuous position (exact rational model of the float triples). -/
abbrev Pos := ℚ × ℚ × ℚ

/-- Python's built-in `round` on a real value: round to nearest, ties to the
nearest even integer (banker's rounding). -/
def pyRound (x : ℚ) : ℤ :=
  if x - ⌊x⌋ < 1/2 then ⌊x⌋
  else if 1/2 < x - ⌊x⌋ then ⌊x⌋ + 1
  else if ⌊x⌋ % 2 = 0 then ⌊x⌋ else ⌊x⌋ + 1

/-- `normalize` from `voxel.py` / `main.py`: the block containing a
continuous position, rounding each component with Python `round`. -/
def normalize (p : Pos) : Coord :=
  (pyRound p.1, pyRound p.2.1, pyRound p.2.2)

/-- The 6 axis-aligned face offsets (`FACES` in `main.py`, `UNIT_VECTORS`
in `voxel.py`), in the source order. -/
def FACES : List Coord :=
  [(0, 1, 0), (0, -1, 0), (-1, 0, 0), (1, 0, 0), (0, 0, 1), (0, 0, -1)]

/-- Dictionary membership: does the association list hold the key? -/
def hasKey {α : Type} (w : List (Coord × α)) (p : Coord) : Bool :=
  w.any fun e => decide (e.1 = p)

/-- Componentwise coordinate addition (`x + dx, y + dy, z + dz`). -/
def addC (p f : Coord) : Coord :=
  (p.1 + f.1, p.2.1 + f.2.1, p.2.2 + f.2.2)

/-- `exposed` from `voxel.py` / `main.py`: true when at least one of the 6
face-adjacent coordinates is not in the world. -/
def exposed {α : Type} (w : List (Coord × α)) (p : Coord) : Bool :=
  FACES.any fun f => ! hasKey w (addC p f)

/-- The `Voxel` record of `voxel.py`: position plus reserved slot index. -/
structure Voxel where
  position : Coord
  index : ℤ
  deriving DecidableEq, Repr

/-- `VoxelWorld._voxels`: coordinate-to-Voxel map in insertion order. -/
abbrev VoxelWorld := List (Coord × Voxel)

/-- `Model.world` from `main.py`: coordinate-to-texture map in insertion
order (textures abstracted to naturals). -/
abbrev ModelWorld := List (Coord × ℕ)

/-- `VoxelWorld.place_voxel`: no-op when the coordinate is present,
otherwise insert a voxel whose slot index is `current_count * 24`. -/
def place_voxel (w : VoxelWorld) (voxel_type : ℕ) (p : Coord) : VoxelWorld :=
  if hasKey w p then w
  else w ++ [(p, ⟨p, (w.length : ℤ) * 24⟩)]

/-- Failure conditions signalled by the two removal operations. -/
inductive RemoveError where
  | notImplemented
  | keyNotFound
  deriving DecidableEq, Repr

/-- `VoxelWorld.remove_voxel`: the body raises `NotImplementedError`
unconditionally, before looking anything up. -/
def remove_voxel (w : VoxelWorld) (p : Coord) : Except RemoveError VoxelWorld :=
  Except.error RemoveError.notImplemented

/-- All entries with the given key deleted (Python `del world[p]` on a
dict whose keys are unique). -/
def eraseKey {α : Type} (w : List (Coord × α)) (p : Coord) : List (Coord × α) :=
  w.filter fun e => ! decide (e.1 = p)

/-- `Model.add_block`: no-op when the coordinate is present, otherwise
store the texture at the coordinate. -/
def add_block (w : ModelWorld) (p : Coord) (texture : ℕ) : ModelWorld :=
  if hasKey w p then w else w ++ [(p, texture)]

/-- `Model.remove_block`: `del self.world[position]` removes the entry when
present and raises `KeyError` when the key is absent. -/
def remove_block (w : ModelWorld) (p : Coord) : Except RemoveError ModelWorld :=
  if hasKey w p then Except.ok (eraseKey w p) else Except.error RemoveError.keyNotFound

/-- One sub-step of the ray march: `x + dx / m` on each component with
`m = 8`. -/
def stepPos (p v : Pos) : Pos :=
  (p.1 + v.1 / 8, p.2.1 + v.2.1 / 8, p.2.2 + v.2.2 / 8)

/-- The loop of `Model.hit_test`, by fuel: check the current sample, else
advance by one sub-step remembering the sample's cell as `previous`. -/
def hitTestGo (w : ModelWorld) (v : Pos) :
    ℕ → Pos → Option Coord → Option Coord × Option Coord
  | 0, _, _ => (none, none)
  | n + 1, pos, prev =>
    let key := normalize pos
    if some key ≠ prev ∧ hasKey w key = true then (some key, prev)
    else hitTestGo w v n (stepPos pos v) (some key)

/-- `Model.hit_test`: march `max_distance * 8` sub-steps of `1/8` unit from
`position` along `vector`, returning the first occupied cell together with
the previously sampled cell, or `(none, none)`. -/
def hit_test (w : ModelWorld) (position vector : Pos)
    (max_distance : ℕ := 8) : Option Coord × Option Coord :=
  hitTestGo w vector (max_distance * 8) position none

/-- The position sampled by the ray march after `k` sub-steps. -/
def samplePos (origin vector : Pos) : ℕ → Pos
  | 0 => origin
  | k + 1 => stepPos (samplePos origin vector k) vector

/-- The collision tolerance constant `pad = 0.25` of `Window.collide`. -/
def pad : ℚ := 1/4

/-- Component `i` of a continuous position (`p[i]` on the Python list). -/
def getI (p : Pos) (i : ℕ) : ℚ :=
  match i with
  | 0 => p.1
  | 1 => p.2.1
  | _ => p.2.2

/-- The position with component `i` replaced (`p[i] = x`). -/
def setI (p : Pos) (i : ℕ) (x : ℚ) : Pos :=
  match i with
  | 0 => (x, p.2.1, p.2.2)
  | 1 => (p.1, x, p.2.2)
  | _ => (p.1, p.2.1, x)

/-- Component `i` of an integer coordinate. -/
def coordI (c : Coord) (i : ℕ) : ℤ :=
  match i with
  | 0 => c.1
  | 1 => c.2.1
  | _ => c.2.2

/-- The neighbor examined by the height scan: `op = list(np); op[1] -= k;
op[i] += face[i]`. -/
def opCoord (np face : Coord) (i : ℕ) (k : ℕ) : Coord :=
  let base : Coord := (np.1, np.2.1 - (k : ℤ), np.2.2)
  match i with
  | 0 => (base.1 + face.1, base.2.1, base.2.2)
  | 1 => (base.1, base.2.1 + face.2.1, base.2.2)
  | _ => (base.1, base.2.1, base.2.2 + face.2.2)

/-- Does any scanned vertical offset have an occupied neighbor along the
face? (The Python loop clamps at the first hit and breaks; the clamp is the
same for every offset, so only existence matters.) -/
def scanOffsets (w : ModelWorld) (np face : Coord) (i : ℕ) (offs : List ℕ) : Bool :=
  offs.any fun k => hasKey w (opCoord np face i k)

/-- One `(face, dimension)` iteration of `Window.collide`: skip when the
face does not involve the dimension or the overlap `d` is under `pad`,
otherwise push the position back by `d - pad` and zero the vertical
velocity on a vertical face, provided some scanned neighbor is occupied. -/
def axisStep (w : ModelWorld) (np : Coord) (offs : List ℕ) (face : Coord)
    (i : ℕ) (s : Pos × ℚ) : Pos × ℚ :=
  if coordI face i = 0 then s
  else
    let d : ℚ := (getI s.1 i - (coordI np i : ℚ)) * (coordI face i : ℚ)
    if d < pad then s
    else if scanOffsets w np face i offs then
      (setI s.1 i (getI s.1 i - (d - pad) * (coordI face i : ℚ)),
        if face = ((0 : ℤ), -1, 0) ∨ face = ((0 : ℤ), 1, 0) then 0 else s.2)
    else s

/-- One face iteration of `Window.collide`: the three dimensions in order. -/
def faceStep (w : ModelWorld) (np : Coord) (offs : List ℕ) (s : Pos × ℚ)
    (face : Coord) : Pos × ℚ :=
  [0, 1, 2].foldl (fun t i => axisStep w np offs face i t) s

/-- The body of `Window.collide`, generic in the list of vertical offsets
scanned per face and dimension. The state threads the corrected position
and the vertical velocity `self.dy`. -/
def collideCore (w : ModelWorld) (position : Pos) (offs : List ℕ) (dy : ℚ) :
    Pos × ℚ :=
  FACES.foldl (faceStep w (normalize position) offs) (position, dy)

/-- `Window.collide`: the vertical offsets scanned are `range(height)`,
that is `0` up to `height - 1`. -/
def collide (w : ModelWorld) (position : Pos) (height : ℕ) (dy : ℚ) :
    Pos × ℚ :=
  collideCore w position (List.range height) dy

/-- Modelled from the spec: a collision resolver whose height scan covers
every integer vertical offset from `0` up to `player_height` inclusive
(`player_height + 1` slices), as section 4.3 step 4 describes. Only the
scanned-offset range differs from `collide`. -/
def collideInclusive (w : ModelWorld) (position : Pos) (height : ℕ)
    (dy : ℚ) : Pos × ℚ :=
  collideCore w position (List.range (height + 1)) dy

/-- One substep of `Window._update`, with the strafe motion vector supplied
as an input (it is derived from trigonometry on the yaw, which the claims
do not touch): scale motion by speed and `dt`, integrate gravity with the
terminal-velocity clamp when not flying, then resolve collisions at player
height 2. Returns the committed position and the new vertical velocity. -/
def updateStep (w : ModelWorld) (flying : Bool) (motion : Pos) (pos : Pos)
    (dy0 : ℚ) (dt : ℚ) : Pos × ℚ :=
  let speed : ℚ := if flying then 15 else 5
  let d := dt * speed
  let m : Pos := (motion.1 * d, motion.2.1 * d, motion.2.2 * d)
  let dy1 : ℚ := if flying then dy0 else max (dy0 - dt * 20) (-50)
  let mY : ℚ := if flying then m.2.1 else m.2.1 + dy1 * dt
  collide w (pos.1 + m.1, pos.2.1 + mY, pos.2.2 + m.2.2) 2 dy1

/-- The gravity integration of `Character.update` in `characters.py`:
`dz -= dt * GRAVITY; dz = max(dz, -TERMINAL_VELOCITY)`. -/
def characterGravity (dz dt : ℚ) : ℚ :=
  max (dz - dt * 20) (-50)

/-- The world reached from the empty initial `VoxelWorld` by a sequence of
`place_voxel` calls. -/
def applyPlaces (ops : List (ℕ × Coord)) : VoxelWorld :=
  ops.foldl (fun w op => place_voxel w op.1 op.2) []

/-- The slot indices of the stored voxels, in insertion order. -/
def slotIndices (w : VoxelWorld) : List ℤ :=
  w.map fun e => e.2.index

/-! ### Helper lemmas -/

lemma samplePos_shift (origin vector : Pos) (k : ℕ) :
    samplePos (stepPos origin vector) vector k = samplePos origin vector (k + 1) := by
  induction k with
  | zero => rfl
  | succ k ih =>
    show stepPos (samplePos (stepPos origin vector) vector k) vector = _
    rw [ih]
    rfl

lemma hitTestGo_none (w : ModelWorld) (vector : Pos) :
    ∀ (n : ℕ) (pos : Pos) (prev : Option Coord),
      (∀ k, k < n → hasKey w (normalize (samplePos pos vector k)) = false) →
      hitTestGo w vector n pos prev = (none, none) := by
  intro n
  induction n with
  | zero => intro pos prev _; rfl
  | succ n ih =>
    intro pos prev h
    have h0 : hasKey w (normalize pos) = false := h 0 (Nat.succ_pos n)
    simp only [hitTestGo, h0]
    simp only [Bool.false_eq_true, and_false, if_false]
    exact ih (stepPos pos vector) (some (normalize pos)) fun k hk => by
      rw [samplePos_shift]
      exact h (k + 1) (Nat.succ_lt_succ hk)

lemma axisStep_snd (w : ModelWorld) (np : Coord) (offs : List ℕ) (face : Coord)
    (i : ℕ) (s : Pos × ℚ) :
    (axisStep w np offs face i s).2 = s.2 ∨ (axisStep w np offs face i s).2 = 0 := by
  unfold axisStep
  by_cases h0 : coordI face i = 0
  · simp [h0]
  · simp only [h0, if_false]
    by_cases h1 : (getI s.1 i - (coordI np i : ℚ)) * (coordI face i : ℚ) < pad
    · simp [h1]
    · simp only [h1, if_false]
      by_cases h2 : scanOffsets w np face i offs = true
      · by_cases h3 : face = ((0 : ℤ), -1, 0) ∨ face = ((0 : ℤ), 1, 0)
        · simp [h2, h3]
        · simp [h2, h3]
      · simp [h2]

lemma faceStep_snd (w : ModelWorld) (np : Coord) (offs : List ℕ) (s : Pos × ℚ)
    (face : Coord) :
    (faceStep w np offs s face).2 = s.2 ∨ (faceStep w np offs s face).2 = 0 := by
  have key : ∀ (idxs : List ℕ) (t : Pos × ℚ),
      (idxs.foldl (fun u i => axisStep w np offs face i u) t).2 = t.2 ∨
      (idxs.foldl (fun u i => axisStep w np offs face i u) t).2 = 0 := by
    intro idxs
    induction idxs with
    | nil => intro t; exact Or.inl rfl
    | cons i idxs ih =>
      intro t
      rw [List.foldl_cons]
      rcases ih (axisStep w np offs face i t) with h | h
      · rw [h]; exact axisStep_snd w np offs face i t
      · exact Or.inr h
  exact key [0, 1, 2] s

lemma collideCore_snd (w : ModelWorld) (position : Pos) (offs : List ℕ) (dy : ℚ) :
    (collideCore w position offs dy).2 = dy ∨ (collideCore w position offs dy).2 = 0 := by
  have key : ∀ (fs : List Coord) (s : Pos × ℚ),
      (fs.foldl (faceStep w (normalize position) offs) s).2 = s.2 ∨
      (fs.foldl (faceStep w (normalize position) offs) s).2 = 0 := by
    intro fs
    induction fs with
    | nil => intro s; exact Or.inl rfl
    | cons f fs ih =>
      intro s
      rw [List.foldl_cons]
      rcases ih (faceStep w (normalize position) offs s f) with h | h
      · rw [h]; exact faceStep_snd w (normalize position) offs s f
      · exact Or.inr h
  exact key FACES (position, dy)

lemma collide_snd (w : ModelWorld) (position : Pos) (height : ℕ) (dy : ℚ) :
    (collide w position height dy).2 = dy ∨ (collide w position height dy).2 = 0 :=
  collideCore_snd w position (List.range height) dy

lemma updateStep_snd (w : ModelWorld) (motion pos : Pos) (dy0 dt : ℚ) :
    -50 ≤ (updateStep w false motion pos dy0 dt).2 := by
  have key : ∀ (P : Pos) (d : ℚ), -50 ≤ d → -50 ≤ (collide w P 2 d).2 := by
    intro P d hd
    rcases collide_snd w P 2 d with h | h
    · rw [h]; exact hd
    · rw [h]; norm_num
  unfold updateStep
  simp only [Bool.false_eq_true, if_false]
  exact key _ _ (le_max_right _ _)

lemma foldSteps_snd (w : ModelWorld) :
    ∀ (steps : List (Pos × ℚ)) (init : Pos × ℚ), -50 ≤ init.2 →
      -50 ≤ (steps.foldl (fun s q => updateStep w false q.1 s.1 s.2 q.2) init).2 := by
  intro steps
  induction steps with
  | nil => intro init h; exact h
  | cons q steps ih =>
    intro init h
    rw [List.foldl_cons]
    exact ih _ (updateStep_snd w q.1 init.1 init.2 q.2)

lemma hasKey_eraseKey {α : Type} (w : List (Coord × α)) (p : Coord) :
    hasKey (eraseKey w p) p = false := by
  rw [hasKey, List.any_eq_false]
  intro e he
  rw [eraseKey, List.mem_filter] at he
  simpa using he.2

lemma eraseKey_length {α : Type} (p : Coord) :
    ∀ (w : List (Coord × α)), (w.map Prod.fst).Nodup →
      hasKey w p = true → (eraseKey w p).length + 1 = w.length := by
  intro w
  induction w with
  | nil => intro _ hk; simp [hasKey] at hk
  | cons e w ih =>
    intro hnd hk
    rw [List.map_cons, List.nodup_cons] at hnd
    rw [eraseKey, List.filter_cons]
    by_cases he : e.1 = p
    · have hall : List.filter (fun x => ! decide (x.1 = p)) w = w := by
        rw [List.filter_eq_self]
        intro x hx
        have hxp : x.1 ≠ p := by
          intro hxp
          apply hnd.1
          rw [he, ← hxp]
          exact List.mem_map_of_mem Prod.fst hx
        simp [hxp]
      simp [he, hall]
    · have hk2 : hasKey w p = true := by
        rw [hasKey, List.any_cons] at hk
        simpa [he, hasKey] using hk
      have hlen := ih hnd.2 hk2
      rw [eraseKey] at hlen
      rw [if_pos (by simp [he])]
      simp only [List.length_cons]
      omega

lemma place_canonical (w : VoxelWorld) (t : ℕ) (p : Coord)
    (h : slotIndices w = List.map (fun k : ℕ => (k : ℤ) * 24) (List.range w.length)) :
    slotIndices (place_voxel w t p) =
      List.map (fun k : ℕ => (k : ℤ) * 24) (List.range (place_voxel w t p).length) := by
  rw [place_voxel]
  by_cases hk : hasKey w p
  · simp only [hk, if_true]
    exact h
  · rw [slotIndices] at h
    simp only [hk, Bool.false_eq_true, if_false, slotIndices, List.map_append,
      List.length_append, List.length_singleton, List.range_succ, List.map_cons,
      List.map_nil, h]

lemma applyPlaces_canonical (ops : List (ℕ × Coord)) :
    slotIndices (applyPlaces ops) =
      List.map (fun k : ℕ => (k : ℤ) * 24) (List.range (applyPlaces ops).length) := by
  rw [applyPlaces]
  have key : ∀ (l : List (ℕ × Coord)) (w : VoxelWorld),
      slotIndices w = List.map (fun k : ℕ => (k : ℤ) * 24) (List.range w.length) →
      slotIndices (l.foldl (fun w op => place_voxel w op.1 op.2) w) =
        List.map (fun k : ℕ => (k : ℤ) * 24)
          (List.range (l.foldl (fun w op => place_voxel w op.1 op.2) w).length) := by
    intro l
    induction l with
    | nil => intro w h; exact h
    | cons op l ih =>
      intro w h
      rw [List.foldl_cons]
      exact ih _ (place_canonical w op.1 op.2 h)
  exact key ops [] rfl

lemma floor_add_half (n : ℤ) : ⌊(n : ℚ) + 1/2⌋ = n := by
  rw [add_comm, Int.floor_add_int]
  norm_num

/-! ### Claims -/

/-- C1: placement is idempotent. Calling `place_voxel` (and `add_block`) at
an occupied coordinate leaves the world completely unchanged (hence the
same occupied set, count, and slot indices), and the insert happens if and
only if the coordinate was absent. -/
theorem place_idempotent :
    ∀ (vw : VoxelWorld) (t : ℕ) (p : Coord) (mw : ModelWorld) (tex : ℕ),
      (hasKey vw p = true → place_voxel vw t p = vw) ∧
      (hasKey vw p = false →
        place_voxel vw t p ≠ vw ∧ hasKey (place_voxel vw t p) p = true) ∧
      (hasKey mw p = true → add_block mw p tex = mw) := by
  intro vw t p mw tex
  refine ⟨?_, ?_, ?_⟩
  · intro h
    rw [place_voxel, if_pos h]
  · intro h
    rw [place_voxel, if_neg (by simp [h])]
    constructor
    · intro heq
      have hlen := congrArg List.length heq
      rw [List.length_append, List.length_singleton] at hlen
      omega
    · rw [hasKey, List.any_append]
      simp [hasKey]
  · intro h
    rw [add_block, if_pos h]

/-- C1 witness: placing again at the occupied coordinate of a one-voxel
world returns the world unchanged. -/
theorem place_idempotent_witness :
    place_voxel [(((0 : ℤ), 0, 0), Voxel.mk ((0 : ℤ), 0, 0) 0)] 5 ((0 : ℤ), 0, 0) =
      [(((0 : ℤ), 0, 0), Voxel.mk ((0 : ℤ), 0, 0) 0)] :=
  (place_idempotent [(((0 : ℤ), 0, 0), Voxel.mk ((0 : ℤ), 0, 0) 0)] 5
    ((0 : ℤ), 0, 0) [] 0).1 (by decide)

/-- C2 counterexample: with exactly one voxel at the origin, the ray from
`(0,0,-10)` along `(0,0,1)` with the default `max_distance = 8` does not
return hit `(0,0,0)` with previous `(0,0,-1)`: the voxel is 10 units away,
beyond the 64-step budget of `1/8`-unit sub-steps. -/
theorem hit_test_example_cex :
    hit_test [(((0 : ℤ), 0, 0), 7)] (0, 0, -10) (0, 0, 1) 8 ≠
      (some ((0 : ℤ), 0, 0), some ((0 : ℤ), 0, -1)) := by
  with_unfolding_all decide

/-- C2 amended: that ray returns `(none, none)` because the voxel lies
beyond the march budget; from an origin within range, `(0,0,-5)`, the same
ray returns hit `(0,0,0)` and previous `(0,0,-1)`. -/
theorem hit_test_example_amended :
    hit_test [(((0 : ℤ), 0, 0), 7)] (0, 0, -10) (0, 0, 1) 8 = (none, none) ∧
    hit_test [(((0 : ℤ), 0, 0), 7)] (0, 0, -5) (0, 0, 1) 8 =
      (some ((0 : ℤ), 0, 0), some ((0 : ℤ), 0, -1)) :=
  ⟨by with_unfolding_all decide, by with_unfolding_all decide⟩

/-- C3 counterexample: with one voxel at `(0,0,0)` and pad `0.25`, `collide`
at desired position `(0,0,0.9)` with player height 2 and incoming vertical
velocity `-1` does not produce position `(0,0,1.25)` with velocity zeroed:
the overlap along every axis is at most `0.1 < pad`, so nothing happens. -/
theorem collide_example_cex :
    collide [(((0 : ℤ), 0, 0), 7)] (0, 0, 9/10) 2 (-1) ≠ ((0, 0, 5/4), 0) := by
  with_unfolding_all decide

/-- C3 amended: the spec's input `(0,0,0.9)` is returned unchanged with the
velocity untouched; the code's vertical axis is the second coordinate, and
a genuinely penetrating move to `(0, 0.7, 0)` above the voxel at `(0,0,0)`
is clamped to `(0, 0.75, 0)` (cell centre minus pad) with the vertical
velocity zeroed by that call. -/
theorem collide_example_amended :
    collide [(((0 : ℤ), 0, 0), 7)] (0, 0, 9/10) 2 (-1) = ((0, 0, 9/10), -1) ∧
    collide [(((0 : ℤ), 0, 0), 7)] (0, 7/10, 0) 2 (-1) = ((0, 3/4, 0), 0) :=
  ⟨by with_unfolding_all decide, by with_unfolding_all decide⟩

/-- C4 counterexample: the collision resolver does not scan the inclusive
offset range `0..player_height`. With height 2, a position overlapping the
`+x` face by `0.3 ≥ pad` and the only voxel at vertical offset 2, the code
(which scans `range(2) = [0, 1]`) differs from the spec-modelled inclusive
scan. -/
theorem collide_scan_cex :
    collide [(((1 : ℤ), -2, 0), 7)] (3/10, 0, 0) 2 (-1) ≠
      collideInclusive [(((1 : ℤ), -2, 0), 7)] (3/10, 0, 0) 2 (-1) := by
  with_unfolding_all decide

/-- C4 amended: the scanned vertical offsets are `0` up to `player_height
- 1` (`range(height)`, `player_height` slices). At height 2, an occupied
neighbor at offset 0 or 1 triggers the clamp, one at offset 2 does not,
while the spec's inclusive scan would clamp at offset 2 as well. -/
theorem collide_scan_amended :
    collide [(((1 : ℤ), 0, 0), 7)] (3/10, 0, 0) 2 (-1) = ((1/4, 0, 0), -1) ∧
    collide [(((1 : ℤ), -1, 0), 7)] (3/10, 0, 0) 2 (-1) = ((1/4, 0, 0), -1) ∧
    collide [(((1 : ℤ), -2, 0), 7)] (3/10, 0, 0) 2 (-1) = ((3/10, 0, 0), -1) ∧
    collideInclusive [(((1 : ℤ), -2, 0), 7)] (3/10, 0, 0) 2 (-1) =
      ((1/4, 0, 0), -1) :=
  ⟨by with_unfolding_all decide, by with_unfolding_all decide,
    by with_unfolding_all decide, by with_unfolding_all decide⟩

/-- C5 counterexample: `VoxelWorld.remove_voxel` at an occupied coordinate
does not remove the voxel: it signals `NotImplementedError`
unconditionally. -/
theorem remove_voxel_cex :
    remove_voxel [(((0 : ℤ), 0, 0), Voxel.mk ((0 : ℤ), 0, 0) 0)] ((0 : ℤ), 0, 0) =
      Except.error RemoveError.notImplemented ∧
    hasKey [(((0 : ℤ), 0, 0), Voxel.mk ((0 : ℤ), 0, 0) 0)] ((0 : ℤ), 0, 0) = true :=
  ⟨rfl, by decide⟩

/-- C5 amended: `Model.remove_block` at an occupied coordinate removes the
voxel (the coordinate is absent afterwards and the count drops by one) and
at an absent coordinate signals `KeyError` (a not-found condition), while
`VoxelWorld.remove_voxel` signals `NotImplementedError` for every
coordinate. -/
theorem remove_semantics :
    ∀ (w : ModelWorld) (p : Coord), (w.map Prod.fst).Nodup →
      (hasKey w p = true →
        remove_block w p = Except.ok (eraseKey w p) ∧
        hasKey (eraseKey w p) p = false ∧
        (eraseKey w p).length + 1 = w.length) ∧
      (hasKey w p = false →
        remove_block w p = Except.error RemoveError.keyNotFound) ∧
      (∀ (vw : VoxelWorld) (q : Coord),
        remove_voxel vw q = Except.error RemoveError.notImplemented) := by
  intro w p hnd
  refine ⟨?_, ?_, fun vw q => rfl⟩
  · intro h
    exact ⟨by rw [remove_block, if_pos h], hasKey_eraseKey w p,
      eraseKey_length p w hnd h⟩
  · intro h
    rw [remove_block, if_neg (by simp [h])]

/-- C5 witness: removing the first key of a two-entry world succeeds, the
key is gone afterwards, and the length drops by one. -/
theorem remove_semantics_witness :
    remove_block [(((0 : ℤ), 0, 0), 3), (((1 : ℤ), 0, 0), 4)] ((0 : ℤ), 0, 0) =
      Except.ok (eraseKey [(((0 : ℤ), 0, 0), 3), (((1 : ℤ), 0, 0), 4)] ((0 : ℤ), 0, 0)) ∧
    hasKey (eraseKey [(((0 : ℤ), 0, 0), 3), (((1 : ℤ), 0, 0), 4)] ((0 : ℤ), 0, 0))
      ((0 : ℤ), 0, 0) = false ∧
    (eraseKey [(((0 : ℤ), 0, 0), 3), (((1 : ℤ), 0, 0), 4)] ((0 : ℤ), 0, 0)).length + 1 =
      ([(((0 : ℤ), 0, 0), 3), (((1 : ℤ), 0, 0), 4)] : ModelWorld).length :=
  (remove_semantics [(((0 : ℤ), 0, 0), 3), (((1 : ℤ), 0, 0), 4)] ((0 : ℤ), 0, 0)
    (by decide)).1 (by decide)

/-- C6 counterexample: a ray whose origin lies inside an occupied voxel
does not return the no-hit pair `(none, none)`: the very first sample is a
hit, returned with `previous = none`. -/
theorem hit_test_inside_cex :
    hit_test [(((0 : ℤ), 0, 0), 7)] (0, 0, 0) (0, 0, 1) 8 ≠
      ((none : Option Coord), (none : Option Coord)) := by
  with_unfolding_all decide

/-- C6 amended: a ray none of whose samples within the step budget lies in
an occupied cell returns `(none, none)` (and the embedding is total, so no
exception is possible), while a ray whose origin's cell is occupied returns
that cell as the hit with `previous = none`. -/
theorem hit_test_degenerate :
    ∀ (w : ModelWorld) (origin vector : Pos) (md : ℕ), 0 < md →
      ((∀ k, k < md * 8 →
          hasKey w (normalize (samplePos origin vector k)) = false) →
        hit_test w origin vector md = (none, none)) ∧
      (hasKey w (normalize origin) = true →
        hit_test w origin vector md = (some (normalize origin), none)) := by
  intro w origin vector md hmd
  constructor
  · intro h
    exact hitTestGo_none w vector (md * 8) origin none h
  · intro hmem
    obtain ⟨n, hn⟩ : ∃ n, md * 8 = n + 1 := ⟨md * 8 - 1, by omega⟩
    rw [hit_test, hn]
    simp only [hitTestGo, hmem]
    simp

/-- C6 witness: the empty world yields `(none, none)`, and a world occupied
at the ray origin yields the origin cell with no predecessor. -/
theorem hit_test_degenerate_witness :
    hit_test ([] : ModelWorld) (0, 0, 0) (0, 0, 1) 1 = (none, none) ∧
    hit_test [(((0 : ℤ), 0, 0), 7)] (0, 0, 0) (0, 0, 1) 8 =
      (some (normalize (0, 0, 0)), none) :=
  ⟨(hit_test_degenerate [] (0, 0, 0) (0, 0, 1) 1 (by decide)).1
      (fun k _ => rfl),
    (hit_test_degenerate [(((0 : ℤ), 0, 0), 7)] (0, 0, 0) (0, 0, 1) 8
      (by decide)).2 (by with_unfolding_all decide)⟩

/-- C7: `exposed` returns true exactly when one of the 6 face-adjacent
coordinates is absent; it is false when all 6 neighbors are occupied, and
erasing any single neighbor makes it true. -/
theorem exposed_correct :
    ∀ {α : Type} (w : List (Coord × α)) (p : Coord),
      (exposed w p = true ↔ ∃ f ∈ FACES, hasKey w (addC p f) = false) ∧
      ((∀ f ∈ FACES, hasKey w (addC p f) = true) → exposed w p = false) ∧
      (∀ f ∈ FACES, exposed (eraseKey w (addC p f)) p = true) := by
  intro α w p
  refine ⟨?_, ?_, ?_⟩
  · rw [exposed, List.any_eq_true]
    constructor
    · rintro ⟨f, hf, hb⟩
      exact ⟨f, hf, by simpa using hb⟩
    · rintro ⟨f, hf, hb⟩
      exact ⟨f, hf, by simp [hb]⟩
  · intro hall
    rw [exposed, List.any_eq_false]
    intro f hf
    simp [hall f hf]
  · intro f hf
    rw [exposed, List.any_eq_true]
    exact ⟨f, hf, by simp [hasKey_eraseKey]⟩

/-- C7 witness: with the origin fully enclosed by its 6 neighbors,
`exposed` is false, and erasing the `+y` neighbor flips it to true. -/
theorem exposed_correct_witness :
    exposed [(((0 : ℤ), 1, 0), 1), (((0 : ℤ), -1, 0), 1), ((((-1) : ℤ), 0, 0), 1),
        (((1 : ℤ), 0, 0), 1), (((0 : ℤ), 0, 1), 1), (((0 : ℤ), 0, -1), 1)]
      ((0 : ℤ), 0, 0) = false ∧
    exposed (eraseKey [(((0 : ℤ), 1, 0), 1), (((0 : ℤ), -1, 0), 1),
        ((((-1) : ℤ), 0, 0), 1), (((1 : ℤ), 0, 0), 1), (((0 : ℤ), 0, 1), 1),
        (((0 : ℤ), 0, -1), 1)] (addC ((0 : ℤ), 0, 0) ((0 : ℤ), 1, 0)))
      ((0 : ℤ), 0, 0) = true :=
  ⟨(exposed_correct [(((0 : ℤ), 1, 0), 1), (((0 : ℤ), -1, 0), 1),
        ((((-1) : ℤ), 0, 0), 1), (((1 : ℤ), 0, 0), 1), (((0 : ℤ), 0, 1), 1),
        (((0 : ℤ), 0, -1), 1)] ((0 : ℤ), 0, 0)).2.1 (by decide),
    (exposed_correct [(((0 : ℤ), 1, 0), 1), (((0 : ℤ), -1, 0), 1),
        ((((-1) : ℤ), 0, 0), 1), (((1 : ℤ), 0, 0), 1), (((0 : ℤ), 0, 1), 1),
        (((0 : ℤ), 0, -1), 1)] ((0 : ℤ), 0, 0)).2.2 ((0 : ℤ), 1, 0) (by decide)⟩

/-- C8: for a non-flying controller the vertical velocity is at least `-50`
after every update step, for any positive timestep and any further sequence
of steps; the `characters.py` gravity clamp obeys the same bound. -/
theorem terminal_velocity :
    ∀ (w : ModelWorld) (motion pos : Pos) (dy0 dt : ℚ), 0 < dt →
      (-50 ≤ (updateStep w false motion pos dy0 dt).2) ∧
      (∀ steps : List (Pos × ℚ),
        -50 ≤ (steps.foldl (fun s q => updateStep w false q.1 s.1 s.2 q.2)
          (updateStep w false motion pos dy0 dt)).2) ∧
      (∀ dz : ℚ, -50 ≤ characterGravity dz dt) := by
  intro w motion pos dy0 dt hdt
  refine ⟨updateStep_snd w motion pos dy0 dt, ?_, ?_⟩
  · intro steps
    exact foldSteps_snd w steps _ (updateStep_snd w motion pos dy0 dt)
  · intro dz
    exact le_max_right _ _

/-- C8 witness: one standing-still step of duration 1 in the empty world
keeps the vertical velocity at or above `-50`. -/
theorem terminal_velocity_witness :
    -50 ≤ (updateStep [] false (0, 0, 0) (0, 0, 0) 0 1).2 :=
  (terminal_velocity [] (0, 0, 0) (0, 0, 0) 0 1 (by norm_num)).1

/-- C9: an insert through `place_voxel` reserves slot index
`current_count * 24`, and in every world reachable from the empty world by
`place_voxel` calls the slot indices are `0, 24, 48, ...` in insertion
order, hence pairwise distinct and strictly increasing. -/
theorem slot_invariant :
    ∀ (w : VoxelWorld) (t : ℕ) (p : Coord) (ops : List (ℕ × Coord)),
      (hasKey w p = false →
        place_voxel w t p = w ++ [(p, Voxel.mk p ((w.length : ℤ) * 24))]) ∧
      slotIndices (applyPlaces ops) =
        List.map (fun k : ℕ => (k : ℤ) * 24) (List.range (applyPlaces ops).length) ∧
      List.Pairwise (fun a b : ℤ => a < b) (slotIndices (applyPlaces ops)) := by
  intro w t p ops
  refine ⟨?_, applyPlaces_canonical ops, ?_⟩
  · intro h
    rw [place_voxel, if_neg (by simp [h])]
  · rw [applyPlaces_canonical ops]
    exact List.Pairwise.map _ (fun a b hab => by omega) (List.pairwise_lt_range _)

/-- C9 witness: inserting into the empty world reserves slot index
`0 * 24`. -/
theorem slot_invariant_witness :
    place_voxel [] 0 ((0 : ℤ), 0, 0) =
      [] ++ [(((0 : ℤ), 0, 0),
        Voxel.mk ((0 : ℤ), 0, 0) ((([] : VoxelWorld).length : ℤ) * 24))] :=
  (slot_invariant [] 0 ((0 : ℤ), 0, 0) []).1 rfl

/-- C10: `normalize` resolves exact half-integer ties to the nearest even
integer (Python banker's rounding): `normalize (0.5, 1.5, -0.5) = (0, 2,
0)` (so neither half-up nor half-away-from-zero), and in general a tie
`n + 1/2` rounds to `n` when `n` is even and to `n + 1` otherwise. -/
theorem normalize_bankers_rounding :
    normalize (1/2, 3/2, -1/2) = ((0 : ℤ), 2, 0) ∧
    ∀ n : ℤ, pyRound ((n : ℚ) + 1/2) = if Even n then n else n + 1 := by
  constructor
  · with_unfolding_all decide
  · intro n
    rw [pyRound, floor_add_half]
    have hr : ((n : ℚ) + 1/2) - n = 1/2 := by ring
    rw [hr]
    rw [if_neg (lt_irrefl _), if_neg (lt_irrefl _)]
    by_cases h : Even n
    · rw [if_pos (Int.even_iff.mp h), if_pos h]
    · rw [if_neg (fun hm => h (Int.even_iff.mpr hm)), if_neg h]

end Echoes
